import Mathlib

/-!
Shallow embedding of the konstrukt frame-graph subsystem
(src/source/renderer/framegraph, src/source/renderer/resources,
src/source/renderer/commands) in Lean 4, together with theorems settling
the specification claims about it.

Modelling conventions:
* C++ machine integers (uint32_t, std::size_t) are Nat with explicit
  `% 2^w` where overflow can occur.
* std::string is String; std::vector is List; std::unordered_map is an
  association list with first-occurrence lookup/update (key-unique in all
  reachable states, so first-occurrence semantics coincide with map
  semantics).
* A RenderPass* pointer is modelled as a PassPtr: a pair of an arena
  identifier (which pass storage the pointer points into) and an index.
  Distinct storages get distinct arena numbers, so pointer equality is
  decidable equality of PassPtr.
* std::function fields are Option of a Lean function; an empty
  std::function is none.
* Calls into the abstract GraphicsContext backend are recorded as a trace
  of BackendCall events.
-/

namespace Konstrukt

/-- ResourceState enum from renderer/core/GraphicsType.hpp. -/
inductive ResourceState where
  | undefined
  | general
  | vertexBuffer
  | indexBuffer
  | constantBuffer
  | indirectBuffer
  | shaderResource
  | unorderedAccess
  | renderTarget
  | depthStencilRead
  | depthStencilWrite
  | shaderRead
  | shaderWrite
  | copySource
  | copyDestination
  | present
  deriving DecidableEq

/-- ResourceType enum (kst::core::ResourceType); its definition header is not
under src/, the constructor set is taken from the exhaustive switch in
renderer/resources/RenderResource.hpp. Only the constructors matter here. -/
inductive ResourceType where
  | unknown
  | buffer
  | vertexBuffer
  | indexBuffer
  | uniformBuffer
  | storageBuffer
  | texture
  | renderTarget
  | depthStencil
  | bindlessTable
  | mesh
  | model
  | material
  deriving DecidableEq

/-- ResourceID from renderer/resources/ResourceID.hpp: a pair of uint32
fields index and generation. -/
structure ResourceID where
  index : Nat
  generation : Nat
  deriving DecidableEq

namespace ResourceID

/-- INVALID_INDEX = std::numeric_limits of uint32_t max. -/
def INVALID_INDEX : Nat := 2 ^ 32 - 1

/-- ResourceID::invalid(). -/
def invalid : ResourceID := { index := INVALID_INDEX, generation := 0 }

/-- ResourceID::create(idx, gen); the uint32 arguments are reduced mod 2^32. -/
def create (idx : Nat) (gen : Nat := 0) : ResourceID :=
  { index := idx % 2 ^ 32, generation := gen % 2 ^ 32 }

/-- ResourceID::isValid(): index != INVALID_INDEX. -/
def isValid (r : ResourceID) : Bool := r.index != INVALID_INDEX

end ResourceID

/-- std::hash of uint32_t, modelled as the identity (as in libstdc++,
where the hash of an integral value is the value itself). -/
def hashU32 (x : Nat) : Nat := x

/-- The std::hash specialization for ResourceID from ResourceID.hpp:
hash1 ^ (hash2 + 0x9e3779b9 + (hash1 << 6) + (hash1 >> 2)), computed in
std::size_t (64-bit) arithmetic. -/
def hashRID (r : ResourceID) : Nat :=
  let hash1 := hashU32 r.index
  let hash2 := hashU32 r.generation
  Nat.xor hash1 ((hash2 + 0x9e3779b9 + hash1 * 2 ^ 6 + hash1 / 2 ^ 2) % 2 ^ 64)

/-- One insertion into a std::unordered_set of ResourceID: the probe finds
the bucket by hash and compares stored elements for equality; the element
is appended only when no stored element has the same hash and compares
equal. -/
def hsInsert (s : List ResourceID) (x : ResourceID) : List ResourceID :=
  if s.any (fun y => hashRID y == hashRID x && y == x) then s else s ++ [x]

/-- A RenderPass* pointer: which pass storage (arena) it points into and
the index of the pass object inside that storage. -/
structure PassPtr where
  arena : Nat
  idx : Nat
  deriving DecidableEq

/-- glm::vec4. Component values are irrelevant to every claim; they are
carried opaquely. -/
structure Vec4 where
  x : Float
  y : Float
  z : Float
  w : Float

/-- glm::mat4 (four columns). -/
structure Mat4 where
  c0 : Vec4
  c1 : Vec4
  c2 : Vec4
  c3 : Vec4

/-- RenderCommandType from renderer/commands/RenderCommand.hpp, in
declaration order (the uint8 values used by the sort comparator). -/
inductive RenderCommandType where
  | clear
  | draw
  | drawIndexed
  | dispatch
  | copy
  | setViewport
  | setScissor
  deriving DecidableEq

/-- The uint8 value of a RenderCommandType (its declaration position). -/
def RenderCommandType.toNat : RenderCommandType → Nat
  | .clear => 0
  | .draw => 1
  | .drawIndexed => 2
  | .dispatch => 3
  | .copy => 4
  | .setViewport => 5
  | .setScissor => 6

/-- ClearCommandData from RenderCommand.hpp. ClearFlags is a uint8
bitmask, carried as a Nat. -/
structure ClearCommandData where
  color : Vec4
  depth : Float
  stencil : Nat
  flags : Nat

/-- DrawCommandData from RenderCommand.hpp. -/
structure DrawCommandData where
  meshId : ResourceID
  materialID : ResourceID
  transform : Mat4
  vertexCount : Nat
  instanceCount : Nat

/-- The payload union of RenderCommand, as a tagged sum: exactly one of
clearData / drawData is active. -/
inductive RenderCommandData where
  | clearData (d : ClearCommandData)
  | drawData (d : DrawCommandData)

/-- RenderCommand: a type tag plus the payload union. -/
structure RenderCommand where
  type : RenderCommandType
  data : RenderCommandData

/-- Reading cmd.drawData.materialID.index, as the sort comparator does.
The source only evaluates this on commands submitted with a draw payload;
on a clear payload the union read is undefined and this model returns 0. -/
def RenderCommand.drawMatIndex (c : RenderCommand) : Nat :=
  match c.data with
  | .drawData d => d.materialID.index
  | .clearData _ => 0

/-- An execute callback: it receives the command buffer (a list of
recorded commands) and returns the updated buffer. -/
def ExecFn : Type := List RenderCommand → List RenderCommand

/-- RenderPass from renderer/framegraph/RenderPass.hpp. Inputs and outputs
are resource names (RenderResourceHandle = std::string). An empty
std::function for the execute callback is none. -/
structure RenderPass where
  name : String := ""
  inputs : List String := []
  outputs : List String := []
  executeFunc : Option ExecFn := none

namespace RenderPass

/-- RenderPass::setName. -/
def setName (p : RenderPass) (n : String) : RenderPass := { p with name := n }

/-- RenderPass::addInput: append unless already present. -/
def addInput (p : RenderPass) (resource : String) : RenderPass :=
  if p.inputs.contains resource then p else { p with inputs := p.inputs ++ [resource] }

/-- RenderPass::addOutput: append unless already present. -/
def addOutput (p : RenderPass) (resource : String) : RenderPass :=
  if p.outputs.contains resource then p else { p with outputs := p.outputs ++ [resource] }

/-- RenderPass::setExecuteFunction. -/
def setExecuteFunction (p : RenderPass) (f : ExecFn) : RenderPass :=
  { p with executeFunc := some f }

/-- RenderPass::execute: invoke the stored callback when set. -/
def execute (p : RenderPass) (commands : List RenderCommand) : List RenderCommand :=
  match p.executeFunc with
  | some f => f commands
  | none => commands

end RenderPass

/-- ResourceDesc from renderer/resources/RenderResource.hpp. The payload
union (buffer / texture / render-target / bindless-table descriptors) is
not inspected by any frame-graph operation; only the header fields are
carried. -/
structure ResourceDesc where
  type : ResourceType := .buffer
  initialState : ResourceState := .undefined
  transient : Bool := false

/-- RenderResource from renderer/resources/RenderResource.hpp. -/
structure RenderResource where
  name : String := ""
  type : ResourceType := .buffer
  state : ResourceState := .undefined
  resourceID : ResourceID := { index := ResourceID.INVALID_INDEX, generation := 0 }
  bindlessIndex : Option Nat := none
  resourceDesc : Option ResourceDesc := none
  transient : Bool := false
  usedThisFrame : Bool := false
  producer : Option PassPtr := none
  consumers : List PassPtr := []

namespace RenderResource

/-- RenderResource(const ResourceDesc&) constructor. -/
def ofDesc (desc : ResourceDesc) : RenderResource :=
  { type := desc.type, state := desc.initialState, resourceDesc := some desc,
    transient := desc.transient }

/-- RenderResource(type, ResourceID, initialState) constructor
(initialState defaults to GENERAL). -/
def ofTypeId (type : ResourceType) (rID : ResourceID)
    (initialState : ResourceState := .general) : RenderResource :=
  { type := type, state := initialState, resourceID := rID }

/-- RenderResource::setName. -/
def setName (r : RenderResource) (n : String) : RenderResource := { r with name := n }

/-- RenderResource::setProducer. -/
def setProducer (r : RenderResource) (pass : Option PassPtr) : RenderResource :=
  { r with producer := pass }

/-- RenderResource::addConsumer from RenderResource.cc. A null pass is
rejected with a logged warning (the Bool in the result records whether the
warning was emitted); otherwise the pass is appended unless an equal
pointer is already in the consumer list. -/
def addConsumer (r : RenderResource) (pass : Option PassPtr) : RenderResource × Bool :=
  match pass with
  | none => (r, true)
  | some p =>
    if r.consumers.contains p then (r, false)
    else ({ r with consumers := r.consumers ++ [p] }, false)

/-- RenderResource::markUsed. -/
def markUsed (r : RenderResource) : RenderResource := { r with usedThisFrame := true }

/-- RenderResource::resetUsage. -/
def resetUsage (r : RenderResource) : RenderResource := { r with usedThisFrame := false }

end RenderResource

/-- The std::unordered_map from resource name to RenderResource, as an
association list. All reachable states have pairwise-distinct keys, and
lookup/update act on the first occurrence of a key. -/
abbrev ResMap : Type := List (String × RenderResource)

/-- Map lookup (FrameGraph::getResource): the first pair with the given
key, if any. -/
def getRes (m : ResMap) (n : String) : Option RenderResource :=
  match m with
  | [] => none
  | (k, r) :: rest => if k = n then some r else getRes rest n

/-- In-place update of the value stored under a key (the effect of
mutating through the pointer FrameGraph::getResource returns). -/
def updateRes (m : ResMap) (n : String) (f : RenderResource → RenderResource) : ResMap :=
  match m with
  | [] => []
  | (k, r) :: rest => if k = n then (k, f r) :: rest else (k, r) :: updateRes rest n f

/-- Insert-or-overwrite (the effect of m_resources[name] = resource). -/
def insertRes (m : ResMap) (n : String) (r : RenderResource) : ResMap :=
  match m with
  | [] => [(n, r)]
  | (k, r0) :: rest => if k = n then (k, r) :: rest else (k, r0) :: insertRes rest n r

/-- FrameGraph from renderer/framegraph/Framegraph.hpp: the pass sequence
and the name-to-resource map. The arena field identifies this graph's pass
storage, so a PassPtr with this arena is a pointer into this graph's pass
vector. -/
structure FrameGraph where
  arena : Nat := 0
  passes : List RenderPass := []
  resources : ResMap := []

namespace FrameGraph

/-- FrameGraph::addPass. -/
def addPass (g : FrameGraph) (pass : RenderPass) : FrameGraph :=
  { g with passes := g.passes ++ [pass] }

/-- FrameGraph::addResource. -/
def addResource (g : FrameGraph) (n : String) (r : RenderResource) : FrameGraph :=
  { g with resources := insertRes g.resources n r }

/-- FrameGraph::getResource. -/
def getResource (g : FrameGraph) (n : String) : Option RenderResource :=
  getRes g.resources n

/-- One iteration of the root-marking loop of FrameGraph::compile
(Framegraph.cc lines 41-52): the pass is marked used as soon as one of its
outputs resolves to a non-transient resource; that first such resource is
marked used and the output scan stops. -/
def rootMarkStep (acc : ResMap × List Bool) (pass : RenderPass) : ResMap × List Bool :=
  match pass.outputs.find? (fun o =>
      match getRes acc.1 o with
      | some r => !r.transient
      | none => false) with
  | some o => (updateRes acc.1 o RenderResource.markUsed, acc.2 ++ [true])
  | none => (acc.1, acc.2 ++ [false])

/-- Root-marking phase of FrameGraph::compile. Returns the updated
resource map and the passUsed flags, in pass order. -/
def rootMark (passes : List RenderPass) (res : ResMap) : ResMap × List Bool :=
  passes.foldl rootMarkStep (res, [])

/-- The body of the input loop of the propagation scan (Framegraph.cc
lines 65-83): an input whose resource exists and is not yet marked used is
marked used, and the first pass whose outputs contain that input name is
marked used (setting the changed flag when it was not already used). -/
def propagateInputStep (passes : List RenderPass) (acc2 : ResMap × List Bool × Bool)
    (inputName : String) : ResMap × List Bool × Bool :=
  let (res, used, changed) := acc2
  match getRes res inputName with
  | some resource =>
    if !resource.usedThisFrame then
      let res := updateRes res inputName RenderResource.markUsed
      match passes.findIdx? (fun producerPass =>
          producerPass.outputs.contains inputName) with
      | some j =>
        if used.getD j false then (res, used, changed)
        else (res, used.set j true, true)
      | none => (res, used, changed)
    else (res, used, changed)
  | none => (res, used, changed)

/-- The per-pass body of the propagation scan (Framegraph.cc lines 58-64):
a pass already marked used is skipped; otherwise its inputs are walked. -/
def propagatePassStep (passes : List RenderPass) (acc : ResMap × List Bool × Bool)
    (i : Nat) : ResMap × List Bool × Bool :=
  if acc.2.1.getD i false then acc
  else
    match passes.get? i with
    | none => acc
    | some pass => pass.inputs.foldl (propagateInputStep passes) acc

/-- One full scan of the propagation while-loop of FrameGraph::compile:
the passes are visited in reverse index order, with the changed flag
starting false. -/
def propagateOnce (passes : List RenderPass) (res : ResMap) (used : List Bool) :
    ResMap × List Bool × Bool :=
  (List.range passes.length).reverse.foldl (propagatePassStep passes) (res, used, false)

/-- The propagation while-loop, with explicit fuel. The C++ loop runs
until a full scan changes nothing; each changing scan turns at least one
passUsed flag from false to true, so (number of passes + 1) scans always
reach the fixed point. -/
def propagate (fuel : Nat) (passes : List RenderPass) (res : ResMap) (used : List Bool) :
    ResMap × List Bool :=
  match fuel with
  | 0 => (res, used)
  | fuel + 1 =>
    let (res, used, changed) := propagateOnce passes res used
    if changed then propagate fuel passes res used else (res, used)

/-- Sweep phase of FrameGraph::compile: keep exactly the passes whose flag
is set, in their original order. -/
def sweep (passes : List RenderPass) (used : List Bool) : List RenderPass :=
  ((passes.zip used).filter (fun pu => pu.2)).map (fun pu => pu.1)

/-- FrameGraph::compile from Framegraph.cc: reset every resource's usage
flag, mark root passes (those with a non-transient output), run the
backward propagation loop to a fixed point, and keep only the passes
marked used. -/
def compile (g : FrameGraph) : FrameGraph :=
  let res0 := g.resources.map (fun p => (p.1, p.2.resetUsage))
  let (res1, used1) := rootMark g.passes res0
  let (res2, used2) := propagate (g.passes.length + 1) g.passes res1 used1
  { g with passes := sweep g.passes used2, resources := res2 }

end FrameGraph

/-- One call made on the abstract GraphicsContext backend during
FrameGraph::execute: either transitionResource(id, oldState, newState) or
executeCommands(commands, count). -/
inductive BackendCall where
  | transition (id : ResourceID) (oldState newState : ResourceState)
  | execCmds (commands : List RenderCommand)

namespace FrameGraph

/-- The body of the input loop of FrameGraph::execute (Framegraph.cc
lines 101-112): when the input resolves and its physical ID is valid and
its state is not already SHADER_READ, a SHADER_READ transition request is
appended to the trace. -/
def inputTransStep (res : ResMap) (t : List BackendCall) (input : String) :
    List BackendCall :=
  match getRes res input with
  | some resource =>
    if resource.resourceID.isValid then
      if resource.state ≠ ResourceState.shaderRead then
        t ++ [BackendCall.transition resource.resourceID resource.state
                ResourceState.shaderRead]
      else t
    else t
  | none => t

/-- The body of the output loop of FrameGraph::execute (Framegraph.cc
lines 114-123): when the output resolves and its physical ID is valid, a
SHADER_WRITE transition request is appended unconditionally. -/
def outputTransStep (res : ResMap) (t : List BackendCall) (output : String) :
    List BackendCall :=
  match getRes res output with
  | some resource =>
    if resource.resourceID.isValid then
      t ++ [BackendCall.transition resource.resourceID resource.state
              ResourceState.shaderWrite]
    else t
  | none => t

/-- The per-pass loop of FrameGraph::execute (Framegraph.cc lines
100-132), translated statement by statement: input transitions, output
transitions, clear the scratch command buffer, run the pass callback, and
submit the recorded commands when there are any. The resource map, the
backend-call trace and the scratch command buffer are threaded through. -/
def executeLoop (res : ResMap) (trace : List BackendCall)
    (commandBuffer : List RenderCommand) :
    List RenderPass → ResMap × List BackendCall × List RenderCommand
  | [] => (res, trace, commandBuffer)
  | pass :: rest =>
    let trace := pass.inputs.foldl (inputTransStep res) trace
    let trace := pass.outputs.foldl (outputTransStep res) trace
    let commandBuffer := []
    let commandBuffer := pass.execute commandBuffer
    let trace :=
      if commandBuffer.length > 0 then trace ++ [BackendCall.execCmds commandBuffer]
      else trace
    executeLoop res trace commandBuffer rest

/-- FrameGraph::execute: run the pass loop over the graph's passes,
returning the trace of backend calls and the graph as execute leaves it. -/
def executeF (g : FrameGraph) : List BackendCall × FrameGraph :=
  let (res, trace, _) := executeLoop g.resources [] [] g.passes
  (trace, { g with resources := res })

/-- The SHADER_READ transition one input contributes, if any, written as
the specification describes it (spec section 4.6 step 1). -/
def inputTransOpt (res : ResMap) (input : String) : Option BackendCall :=
  match getRes res input with
  | some r =>
    if r.resourceID.isValid then
      if r.state ≠ ResourceState.shaderRead then
        some (BackendCall.transition r.resourceID r.state ResourceState.shaderRead)
      else none
    else none
  | none => none

/-- The SHADER_WRITE transition one output contributes, if any, written as
the specification describes it (spec section 4.6 step 2). -/
def outputTransOpt (res : ResMap) (output : String) : Option BackendCall :=
  match getRes res output with
  | some r =>
    if r.resourceID.isValid then
      some (BackendCall.transition r.resourceID r.state ResourceState.shaderWrite)
    else none
  | none => none

/-- The backend calls one pass emits, written as the specification
describes them (spec section 4.6): conditional SHADER_READ transitions for
the inputs, unconditional SHADER_WRITE transitions for the outputs, then
the commands the callback records into a cleared buffer, submitted only
when non-empty. Used to state that executeF emits exactly this, pass by
pass. -/
def passEmissionSpec (res : ResMap) (pass : RenderPass) : List BackendCall :=
  pass.inputs.filterMap (inputTransOpt res)
  ++ pass.outputs.filterMap (outputTransOpt res)
  ++ (let cmds := pass.execute []
      if cmds.length > 0 then [BackendCall.execCmds cmds] else [])

end FrameGraph

/-- The FrameGraph copy constructor (Framegraph.hpp lines 41-71). The copy
receives a fresh pass storage (newArena); passes and resources are copied
field-wise, then for each resource the producer pointer is reset and
re-bound to the first pass in the copy whose name equals the original
producer's name, and for each original consumer the first pass in the copy
with a matching name is added through addConsumer. The copied consumer
list is never cleared first, exactly as in the source. Dereferencing an
original pointer looks its pass up in the original graph's storage; an
out-of-range pointer (impossible in a well-formed graph) contributes
nothing. -/
def copyFrameGraph (g : FrameGraph) (newArena : Nat) : FrameGraph :=
  { arena := newArena
    passes := g.passes
    resources := g.resources.map (fun p =>
      let (name, resource) := p
      let resource := resource.setProducer none
      let resource :=
        match getRes g.resources name with
        | none => resource
        | some original =>
          let resource :=
            match original.producer with
            | none => resource
            | some originalProducer =>
              match (if originalProducer.arena = g.arena then
                  g.passes.get? originalProducer.idx else none) with
              | none => resource
              | some producerPass =>
                match g.passes.findIdx? (fun pass => pass.name = producerPass.name) with
                | some j => resource.setProducer (some ⟨newArena, j⟩)
                | none => resource
          original.consumers.foldl
            (fun r originalConsumer =>
              match (if originalConsumer.arena = g.arena then
                  g.passes.get? originalConsumer.idx else none) with
              | none => r
              | some consumerPass =>
                match g.passes.findIdx? (fun pass => pass.name = consumerPass.name) with
                | some j => (r.addConsumer (some ⟨newArena, j⟩)).1
                | none => r)
            resource
      (name, resource)) }

/-- PassBuilder from renderer/framegraph/FramegraphBuilder.hpp. -/
structure PassBuilder where
  inputs : List String := []
  outputs : List String := []

namespace PassBuilder

/-- PassBuilder::read from FramegraphBuilder.cc: append to the inputs list
unless the name is already in the outputs list. -/
def read (b : PassBuilder) (resourceName : String) : PassBuilder :=
  if b.outputs.contains resourceName then b
  else { b with inputs := b.inputs ++ [resourceName] }

/-- PassBuilder::write from FramegraphBuilder.cc: append to the outputs
list unless the name is already in the outputs list. -/
def write (b : PassBuilder) (resourceName : String) : PassBuilder :=
  if b.outputs.contains resourceName then b
  else { b with outputs := b.outputs ++ [resourceName] }

end PassBuilder

/-- FrameGraphBuilder::PassEntry: one pending pass declaration. The
executeFunc captured by addPass is always a real closure. -/
structure PassEntry where
  name : String
  executeFunc : ExecFn
  inputs : List String
  outputs : List String

/-- FrameGraphBuilder (the fields build() reads). The builder's arena
identifies the storage of the local RenderPass objects build() constructs
and takes addresses of, one per pass entry. -/
structure FrameGraphBuilder where
  arena : Nat
  framegraph : FrameGraph
  passes : List PassEntry := []
  resources : ResMap := []

namespace FrameGraphBuilder

/-- One step of the input loop of build(): when the input name resolves in
the FrameGraph, record this pass as a consumer of the resource. -/
def wireInputsStep (arena : Nat) (i : Nat) (res : ResMap) (input : String) : ResMap :=
  match getRes res input with
  | some _ => updateRes res input (fun r => (r.addConsumer (some ⟨arena, i⟩)).1)
  | none => res

/-- One step of the output loop of build(), resource side: when the output
name resolves, record this pass as the resource's producer. -/
def wireOutputsStep (arena : Nat) (i : Nat) (res : ResMap) (output : String) : ResMap :=
  match getRes res output with
  | some _ => updateRes res output (fun r => r.setProducer (some ⟨arena, i⟩))
  | none => res

/-- The body of the per-entry loop of FrameGraphBuilder::build
(FramegraphBuilder.cc lines 23-44): construct a RenderPass, wire each
declared input's resource (when it exists in the target FrameGraph) to add
this pass as a consumer, for each declared output add it to the pass and
wire the resource (when it exists) to set this pass as producer, attach
the execute function, and append the pass to the FrameGraph. The C++
output loop interleaves the pass-side addOutput with the resource-side
producer wiring; the two touch disjoint state, so they are two folds here.
The pointer taken to the local pass object is ⟨arena, i⟩ for the i-th
entry. -/
def buildStep (arena : Nat) (i : Nat) (g : FrameGraph) (entry : PassEntry) : FrameGraph :=
  let pass := RenderPass.setName {} entry.name
  let g := { g with resources := entry.inputs.foldl (wireInputsStep arena i) g.resources }
  let pass := entry.outputs.foldl RenderPass.addOutput pass
  let g := { g with resources := entry.outputs.foldl (wireOutputsStep arena i) g.resources }
  let pass := pass.setExecuteFunction entry.executeFunc
  g.addPass pass

/-- The per-entry loop of build(), with the running index of the entry
being processed (the index names the storage slot of the local pass
object whose address is taken). -/
def buildLoop (arena : Nat) (i : Nat) (g : FrameGraph) : List PassEntry → FrameGraph
  | [] => g
  | entry :: rest => buildLoop arena (i + 1) (buildStep arena i g entry) rest

/-- FrameGraphBuilder::build: run the per-entry loop over the pending
passes, copy every locally declared resource into the FrameGraph's
resource map, compile, and return the FrameGraph. -/
def build (b : FrameGraphBuilder) : FrameGraph :=
  let g := buildLoop b.arena 0 b.framegraph b.passes
  let g := b.resources.foldl (fun g nr => g.addResource nr.1 nr.2) g
  g.compile

/-- FrameGraphBuilder::createTexture: allocate the texture through the
ResourceManager (yielding resourceId) and record a TEXTURE RenderResource
under the name in the builder's local map. -/
def createTexture (b : FrameGraphBuilder) (n : String) (resourceId : ResourceID) :
    FrameGraphBuilder :=
  { b with resources := insertRes b.resources n (RenderResource.ofTypeId .texture resourceId) }

end FrameGraphBuilder

/-- The strict comparator passed to boost stable_sort in
RenderCommandBuffer::sort (RenderCommandBuffer.cc lines 32-44): primarily
the uint8 value of the command type; for equal DRAW / DRAW_INDEXED types,
the draw payload's materialID.index; otherwise no order. -/
def cmdLt (lhs rhs : RenderCommand) : Bool :=
  if lhs.type ≠ rhs.type then lhs.type.toNat < rhs.type.toNat
  else
    match lhs.type with
    | .draw | .drawIndexed => lhs.drawMatIndex < rhs.drawMatIndex
    | _ => false

/-- RenderCommandBuffer::sort: a stable sort of the command list under the
strict comparator cmdLt. A stable sort under a strict weak order is the
unique sorted stable permutation, so it is modelled by the standard stable
mergeSort run with the non-strict relation (a, b are in order when b is
not strictly before a). -/
def sortCmds (l : List RenderCommand) : List RenderCommand :=
  l.mergeSort (fun a b => !(cmdLt b a))

/-- The pointers, in entry order, to the pass objects of the entries
(numbered from start) that declare the given name among their inputs.
Used to characterize the consumer lists build() produces. -/
def readersFrom (arena : Nat) (start : Nat) (n : String) : List PassEntry → List PassPtr
  | [] => []
  | e :: rest =>
    (if n ∈ e.inputs then [⟨arena, start⟩] else []) ++ readersFrom arena (start + 1) n rest

/-- The pointer to the pass object of the last entry (numbered from start)
that declares the given name among its outputs, if any. Used to
characterize the producer build() records (last writer wins). -/
def lastWriterFrom (arena : Nat) (start : Nat) (n : String) : List PassEntry → Option PassPtr
  | [] => none
  | e :: rest =>
    match lastWriterFrom arena (start + 1) n rest with
    | some p => some p
    | none => if n ∈ e.outputs then some ⟨arena, start⟩ else none

/-- The command types the comparator orders by material index: DRAW and
DRAW_INDEXED. -/
def isDrawFamily (t : RenderCommandType) : Prop :=
  t = RenderCommandType.draw ∨ t = RenderCommandType.drawIndexed

instance (t : RenderCommandType) : Decidable (isDrawFamily t) := by
  unfold isDrawFamily
  infer_instance

/-- The ordering the sorted command buffer satisfies, in the claim's
vocabulary: primarily by command type (enumeration order), secondarily by
material index for the DRAW / DRAW_INDEXED types. -/
def cmdOrdered (a b : RenderCommand) : Prop :=
  (a.type ≠ b.type → a.type.toNat < b.type.toNat)
  ∧ (a.type = b.type → isDrawFamily a.type → a.drawMatIndex ≤ b.drawMatIndex)

/-! Concrete inputs used by the claim theorems. -/

/-- Pass A of the culling-invariant scenario: writes only the transient
resource "T". -/
def passA1 : RenderPass := { name := "A", outputs := ["T"] }

/-- Pass C of the culling-invariant scenario: reads "T", produces
nothing. -/
def passC1 : RenderPass := { name := "C", inputs := ["T"] }

/-- The frame graph for the culling-invariant scenario: A writes transient
"T", C reads "T", nothing non-transient exists. -/
def gC1 : FrameGraph :=
  { passes := [passA1, passC1], resources := [("T", { name := "T", transient := true })] }

/-- Pass A of the transitive-retention scenario: writes transient
"Intermediate". -/
def passA2 : RenderPass := { name := "A", outputs := ["Intermediate"] }

/-- Pass B of the transitive-retention scenario: reads "Intermediate",
writes non-transient "Swapchain". -/
def passB2 : RenderPass := { name := "B", inputs := ["Intermediate"], outputs := ["Swapchain"] }

/-- The frame graph of the transitive-retention scenario. -/
def gC2 : FrameGraph :=
  { passes := [passA2, passB2],
    resources := [("Intermediate", { name := "Intermediate", transient := true }),
                  ("Swapchain", { name := "Swapchain", transient := false })] }

/-- A builder exercising build() with builder-declared resources: the
target frame graph is empty, resources "R" and "W" live in the builder's
local map (as createTexture records them), and the single pass entry reads
"R" and writes "W". -/
def bC3 : FrameGraphBuilder :=
  { arena := 7, framegraph := {},
    passes := [{ name := "P", executeFunc := id, inputs := ["R"], outputs := ["W"] }],
    resources :=
      [("R", RenderResource.ofTypeId .texture (ResourceID.create 1 0)),
       ("W", RenderResource.ofTypeId .texture (ResourceID.create 2 0))] }

/-- A builder whose target frame graph already contains resource "S"
(unwired) and whose local map holds "R"; its single entry reads and writes
"S". Used to instantiate the amended build() wiring theorem. -/
def bC3w : FrameGraphBuilder :=
  { arena := 7,
    framegraph := { arena := 0, passes := [],
                    resources := [("S", { name := "S", transient := false })] },
    passes := [{ name := "P", executeFunc := id, inputs := ["S"], outputs := ["S"] }],
    resources := [("R", RenderResource.ofTypeId .texture (ResourceID.create 1 0))] }

/-- A frame graph with one pass "P" and a resource "R" whose producer and
consumer list point at that pass; input for the copy-constructor claim. -/
def gC5 : FrameGraph :=
  { arena := 0, passes := [{ name := "P" }],
    resources := [("R", { name := "R", producer := some ⟨0, 0⟩, consumers := [⟨0, 0⟩] })] }

/-- An all-zero matrix payload for concrete draw commands. -/
def zeroMat4 : Mat4 := ⟨⟨0, 0, 0, 0⟩, ⟨0, 0, 0, 0⟩, ⟨0, 0, 0, 0⟩, ⟨0, 0, 0, 0⟩⟩

/-- A DRAW_INDEXED command with the given material index. -/
def mkDrawIndexed (m : Nat) : RenderCommand :=
  { type := .drawIndexed,
    data := .drawData
      { meshId := ResourceID.create 0 0, materialID := ResourceID.create m 0,
        transform := zeroMat4, vertexCount := 3, instanceCount := 1 } }

/-- A DRAW command with the given mesh index and material index. -/
def mkDraw (mesh m : Nat) : RenderCommand :=
  { type := .draw,
    data := .drawData
      { meshId := ResourceID.create mesh 0, materialID := ResourceID.create m 0,
        transform := zeroMat4, vertexCount := 3, instanceCount := 1 } }

/-- A frame graph with one valid, UNDEFINED-state resource "R" read by a
single pass; input for the execute-purity witness. -/
def gC10 : FrameGraph :=
  { passes := [{ name := "P", inputs := ["R"] }],
    resources := [("R", { name := "R", state := .undefined,
                          resourceID := ResourceID.create 1 0 })] }

/-- The producer/consumer wiring of a resource, the part of its state the
builder claim is about. -/
def wiringOf (r : RenderResource) : Option PassPtr × List PassPtr :=
  (r.producer, r.consumers)

/-! Theorems settling the claims. -/

/-- Looking a key up after an in-place update: the stored value is mapped
when the keys agree, other keys are untouched. -/
theorem getRes_updateRes (m : ResMap) (n k : String) (f : RenderResource → RenderResource) :
    getRes (updateRes m k f) n
      = if k = n then (getRes m n).map f else getRes m n := by
  induction m with
  | nil => simp [updateRes, getRes]
  | cons p rest ih =>
    obtain ⟨k0, r0⟩ := p
    by_cases h0 : k0 = k
    · subst h0
      simp only [updateRes, if_pos rfl]
      by_cases h1 : k0 = n
      · subst h1
        simp [getRes]
      · simp [getRes, h1]
    · simp only [updateRes, if_neg h0]
      by_cases h1 : k0 = n
      · subst h1
        have hkn : ¬ k = k0 := fun hh => h0 hh.symm
        simp [getRes, hkn]
      · simp [getRes, h1, ih]

/-- Looking a key up after insert-or-overwrite. -/
theorem getRes_insertRes (m : ResMap) (n k : String) (r : RenderResource) :
    getRes (insertRes m k r) n = if k = n then some r else getRes m n := by
  induction m with
  | nil => simp [insertRes, getRes]
  | cons p rest ih =>
    obtain ⟨k0, r0⟩ := p
    by_cases h0 : k0 = k
    · subst h0
      simp only [insertRes, if_pos rfl]
      by_cases h1 : k0 = n
      · subst h1
        simp [getRes]
      · simp [getRes, h1]
    · simp only [insertRes, if_neg h0]
      by_cases h1 : k0 = n
      · subst h1
        have hkn : ¬ k = k0 := fun hh => h0 hh.symm
        simp [getRes, hkn]
      · simp [getRes, h1, ih]

/-- Looking a key up after mapping a function over all stored values. -/
theorem getRes_map_val (m : ResMap) (n : String) (f : RenderResource → RenderResource) :
    getRes (m.map (fun p => (p.1, f p.2))) n = (getRes m n).map f := by
  induction m with
  | nil => simp [getRes]
  | cons p rest ih =>
    obtain ⟨k0, r0⟩ := p
    by_cases h1 : k0 = n
    · subst h1
      simp [getRes]
    · simp [getRes, h1, ih]

/-- A key is absent exactly when no stored pair carries it. -/
theorem getRes_none_iff (m : ResMap) (n : String) :
    getRes m n = none ↔ ∀ p ∈ m, p.1 ≠ n := by
  induction m with
  | nil => simp [getRes]
  | cons p rest ih =>
    obtain ⟨k0, r0⟩ := p
    by_cases h1 : k0 = n
    · subst h1
      simp [getRes]
    · simp [getRes, h1, ih]

/-- A fold preserves any invariant its step preserves. -/
theorem foldl_invariant {σ α : Type} (P : σ → Prop) (step : σ → α → σ)
    (h : ∀ s a, P s → P (step s a)) :
    ∀ (l : List α) (s : σ), P s → P (l.foldl step s) := by
  intro l
  induction l with
  | nil => intro s hs; exact hs
  | cons a l ih => intro s hs; exact ih _ (h s a hs)

/-- Updating a stored value with a function that does not change its
wiring leaves every wiring lookup unchanged. -/
theorem wiring_lookup_updateRes (m : ResMap) (k : String)
    (f : RenderResource → RenderResource) (hf : ∀ r, wiringOf (f r) = wiringOf r)
    (n : String) :
    (getRes (updateRes m k f) n).map wiringOf = (getRes m n).map wiringOf := by
  rw [getRes_updateRes]
  by_cases h : k = n
  · subst h
    cases getRes m k <;> simp [hf]
  · simp [h]

/-- One root-marking step only toggles usage flags: every wiring lookup is
unchanged. -/
theorem rootMarkStep_wiring (acc : ResMap × List Bool) (pass : RenderPass) (n : String) :
    (getRes (FrameGraph.rootMarkStep acc pass).1 n).map wiringOf
      = (getRes acc.1 n).map wiringOf := by
  unfold FrameGraph.rootMarkStep
  cases hfind : pass.outputs.find? (fun o =>
      match getRes acc.1 o with
      | some r => !r.transient
      | none => false) with
  | none => rfl
  | some o =>
    exact wiring_lookup_updateRes acc.1 o RenderResource.markUsed (fun r => rfl) n

/-- The root-marking phase of compile() only toggles usage flags: every
wiring lookup is unchanged. -/
theorem rootMark_wiring (passes : List RenderPass) (res : ResMap) :
    ∀ n, (getRes (FrameGraph.rootMark passes res).1 n).map wiringOf
      = (getRes res n).map wiringOf := by
  unfold FrameGraph.rootMark
  refine foldl_invariant
    (fun s : ResMap × List Bool =>
      ∀ n, (getRes s.1 n).map wiringOf = (getRes res n).map wiringOf)
    FrameGraph.rootMarkStep ?_ passes (res, []) ?_
  · intro s pass hs n
    rw [rootMarkStep_wiring s pass n]
    exact hs n
  · intro n
    rfl

/-- One input step of the propagation scan only toggles usage flags: every
wiring lookup is unchanged. -/
theorem propagateInputStep_wiring (passes : List RenderPass)
    (acc2 : ResMap × List Bool × Bool) (inputName : String) (n : String) :
    (getRes (FrameGraph.propagateInputStep passes acc2 inputName).1 n).map wiringOf
      = (getRes acc2.1 n).map wiringOf := by
  obtain ⟨res3, used3, changed3⟩ := acc2
  unfold FrameGraph.propagateInputStep
  dsimp only
  cases hg : getRes res3 inputName with
  | none => rfl
  | some resource =>
    dsimp only
    by_cases hub : (!resource.usedThisFrame) = true
    · rw [if_pos hub]
      have hw : (getRes (updateRes res3 inputName RenderResource.markUsed) n).map wiringOf
          = (getRes res3 n).map wiringOf :=
        wiring_lookup_updateRes res3 inputName RenderResource.markUsed (fun r => rfl) n
      cases hidx : passes.findIdx? (fun producerPass =>
          producerPass.outputs.contains inputName) with
      | none => exact hw
      | some j =>
        dsimp only
        by_cases hj : used3.getD j false = true
        · rw [if_pos hj]
          exact hw
        · rw [if_neg hj]
          exact hw
    · rw [if_neg hub]

/-- One pass step of the propagation scan only toggles usage flags: every
wiring lookup is unchanged. -/
theorem propagatePassStep_wiring (passes : List RenderPass)
    (acc : ResMap × List Bool × Bool) (i : Nat) (n : String) :
    (getRes (FrameGraph.propagatePassStep passes acc i).1 n).map wiringOf
      = (getRes acc.1 n).map wiringOf := by
  unfold FrameGraph.propagatePassStep
  by_cases hu : acc.2.1.getD i false = true
  · rw [if_pos hu]
  · rw [if_neg hu]
    cases hget : passes.get? i with
    | none => rfl
    | some pass =>
      refine foldl_invariant
        (fun s2 : ResMap × List Bool × Bool =>
          (getRes s2.1 n).map wiringOf = (getRes acc.1 n).map wiringOf)
        (FrameGraph.propagateInputStep passes) ?_ pass.inputs acc rfl
      intro s2 inputName hs2
      rw [propagateInputStep_wiring passes s2 inputName n]
      exact hs2

/-- One scan of the propagation loop of compile() only toggles usage
flags: every wiring lookup is unchanged. -/
theorem propagateOnce_wiring (passes : List RenderPass) (res : ResMap) (used : List Bool) :
    ∀ n, (getRes (FrameGraph.propagateOnce passes res used).1 n).map wiringOf
      = (getRes res n).map wiringOf := by
  intro n
  unfold FrameGraph.propagateOnce
  refine foldl_invariant
    (fun s : ResMap × List Bool × Bool =>
      (getRes s.1 n).map wiringOf = (getRes res n).map wiringOf)
    (FrameGraph.propagatePassStep passes) ?_ (List.range passes.length).reverse
    (res, used, false) rfl
  intro s i hs
  rw [propagatePassStep_wiring passes s i n]
  exact hs

/-- The propagation loop of compile() only toggles usage flags: every
wiring lookup is unchanged. -/
theorem propagate_wiring :
    ∀ (fuel : Nat) (passes : List RenderPass) (res : ResMap) (used : List Bool) (n : String),
      (getRes (FrameGraph.propagate fuel passes res used).1 n).map wiringOf
        = (getRes res n).map wiringOf := by
  intro fuel
  induction fuel with
  | zero => intro passes res used n; rfl
  | succ fuel ih =>
    intro passes res used n
    unfold FrameGraph.propagate
    rcases hP : FrameGraph.propagateOnce passes res used with ⟨res1, used1, changed⟩
    have h1 : (getRes res1 n).map wiringOf = (getRes res n).map wiringOf := by
      have := propagateOnce_wiring passes res used n
      rw [hP] at this
      exact this
    cases changed with
    | true => simp only [if_true]; rw [ih passes res1 used1 n]; exact h1
    | false => simp only [if_false, Bool.false_eq_true]; exact h1

/-- Adding a fresh consumer pointer appends it. -/
theorem addConsumer_not_mem (r : RenderResource) (p : PassPtr) (h : p ∉ r.consumers) :
    (r.addConsumer (some p)).1 = { r with consumers := r.consumers ++ [p] } := by
  simp [RenderResource.addConsumer, h]

/-- addConsumer never changes the producer. -/
theorem addConsumer_producer (r : RenderResource) (x : Option PassPtr) :
    (r.addConsumer x).1.producer = r.producer := by
  cases x with
  | none => rfl
  | some p =>
    by_cases h : p ∈ r.consumers <;> simp [RenderResource.addConsumer, h]

/-- Effect of the input-wiring loop of build() on one resource lookup: the
pass pointer is added as a consumer exactly when the resource name is
among the declared inputs (duplicate input names collapse through
addConsumer's de-duplication). -/
theorem wireInputs_fold_lookup (arena i : Nat) :
    ∀ (inputs : List String) (res : ResMap) (n : String) (r : RenderResource),
      getRes res n = some r →
      getRes (inputs.foldl (FrameGraphBuilder.wireInputsStep arena i) res) n
        = some (if n ∈ inputs then (r.addConsumer (some ⟨arena, i⟩)).1 else r) := by
  intro inputs
  induction inputs with
  | nil => intro res n r hg; simpa using hg
  | cons a rest ih =>
    intro res n r hg
    rw [List.foldl_cons]
    by_cases ha : a = n
    · subst ha
      have hstep : getRes (FrameGraphBuilder.wireInputsStep arena i res a) a
          = some ((r.addConsumer (some ⟨arena, i⟩)).1) := by
        unfold FrameGraphBuilder.wireInputsStep
        rw [hg]
        rw [getRes_updateRes]
        simp [hg]
      rw [ih _ _ _ hstep]
      by_cases hrest : a ∈ rest
      · have hidem : (((r.addConsumer (some ⟨arena, i⟩)).1).addConsumer
            (some ⟨arena, i⟩)).1 = (r.addConsumer (some ⟨arena, i⟩)).1 := by
          by_cases h : (⟨arena, i⟩ : PassPtr) ∈ r.consumers <;>
            simp [RenderResource.addConsumer, h]
        simp [hrest, hidem]
      · simp [hrest]
    · have hstep : getRes (FrameGraphBuilder.wireInputsStep arena i res a) n = some r := by
        unfold FrameGraphBuilder.wireInputsStep
        cases hga : getRes res a with
        | none => exact hg
        | some ra =>
          rw [getRes_updateRes, if_neg ha]
          exact hg
      rw [ih _ _ _ hstep]
      have hiff : (n ∈ a :: rest) ↔ (n ∈ rest) := by
        simp [List.mem_cons]
        intro hna
        exact absurd hna.symm ha
      by_cases hrest : n ∈ rest
      · rw [if_pos hrest, if_pos (hiff.mpr hrest)]
      · rw [if_neg hrest, if_neg (fun hmem => hrest (hiff.mp hmem))]

/-- Effect of the output-wiring loop of build() on one resource lookup:
the pass pointer becomes the producer exactly when the resource name is
among the declared outputs. -/
theorem wireOutputs_fold_lookup (arena i : Nat) :
    ∀ (outputs : List String) (res : ResMap) (n : String) (r : RenderResource),
      getRes res n = some r →
      getRes (outputs.foldl (FrameGraphBuilder.wireOutputsStep arena i) res) n
        = some (if n ∈ outputs then r.setProducer (some ⟨arena, i⟩) else r) := by
  intro outputs
  induction outputs with
  | nil => intro res n r hg; simpa using hg
  | cons a rest ih =>
    intro res n r hg
    rw [List.foldl_cons]
    by_cases ha : a = n
    · subst ha
      have hstep : getRes (FrameGraphBuilder.wireOutputsStep arena i res a) a
          = some (r.setProducer (some ⟨arena, i⟩)) := by
        unfold FrameGraphBuilder.wireOutputsStep
        rw [hg]
        rw [getRes_updateRes]
        simp [hg]
      rw [ih _ _ _ hstep]
      by_cases hrest : a ∈ rest
      · simp [hrest, RenderResource.setProducer]
      · simp [hrest]
    · have hstep : getRes (FrameGraphBuilder.wireOutputsStep arena i res a) n = some r := by
        unfold FrameGraphBuilder.wireOutputsStep
        cases hga : getRes res a with
        | none => exact hg
        | some ra =>
          rw [getRes_updateRes, if_neg ha]
          exact hg
      rw [ih _ _ _ hstep]
      have hiff : (n ∈ a :: rest) ↔ (n ∈ rest) := by
        simp [List.mem_cons]
        intro hna
        exact absurd hna.symm ha
      by_cases hrest : n ∈ rest
      · rw [if_pos hrest, if_pos (hiff.mpr hrest)]
      · rw [if_neg hrest, if_neg (fun hmem => hrest (hiff.mp hmem))]

/-- Effect of one build() entry on one resource lookup: consumer added
when read, producer set when written. -/
theorem buildStep_lookup (arena i : Nat) (g : FrameGraph) (e : PassEntry)
    (n : String) (r : RenderResource) (hg : getRes g.resources n = some r) :
    getRes (FrameGraphBuilder.buildStep arena i g e).resources n
      = some (if n ∈ e.outputs then
          (if n ∈ e.inputs then (r.addConsumer (some ⟨arena, i⟩)).1 else r).setProducer
            (some ⟨arena, i⟩)
        else (if n ∈ e.inputs then (r.addConsumer (some ⟨arena, i⟩)).1 else r)) := by
  show getRes (e.outputs.foldl (FrameGraphBuilder.wireOutputsStep arena i)
      (e.inputs.foldl (FrameGraphBuilder.wireInputsStep arena i) g.resources)) n = _
  rw [wireOutputs_fold_lookup arena i e.outputs _ n _
    (wireInputs_fold_lookup arena i e.inputs g.resources n r hg)]

/-- Each build() entry appends exactly one pass to the graph, named after
the entry and carrying the captured execute function. -/
theorem buildStep_passes (arena i : Nat) (g : FrameGraph) (e : PassEntry) :
    ∃ p : RenderPass, (FrameGraphBuilder.buildStep arena i g e).passes = g.passes ++ [p]
      ∧ p.executeFunc = some e.executeFunc ∧ p.name = e.name := by
  refine ⟨(e.outputs.foldl RenderPass.addOutput
    (RenderPass.setName {} e.name)).setExecuteFunction e.executeFunc, rfl, rfl, ?_⟩
  show (e.outputs.foldl RenderPass.addOutput (RenderPass.setName {} e.name)).name = e.name
  have : ∀ (l : List String) (p : RenderPass),
      (l.foldl RenderPass.addOutput p).name = p.name := by
    intro l
    induction l with
    | nil => intro p; rfl
    | cons a rest ih =>
      intro p
      rw [List.foldl_cons, ih]
      unfold RenderPass.addOutput
      by_cases h : p.outputs.contains a = true
      · rw [if_pos h]
      · rw [if_neg h]
  exact this e.outputs _

/-- Effect of the whole entry loop of build() on one resource lookup,
for a resource whose consumer list does not already contain pointers into
the builder's pass storage at indices to come: every entry reading the
name is appended as a consumer in entry order, and the last entry writing
the name becomes the producer. -/
theorem buildLoop_lookup (arena : Nat) :
    ∀ (entries : List PassEntry) (i : Nat) (g : FrameGraph) (n : String)
      (r : RenderResource),
      getRes g.resources n = some r →
      (∀ q ∈ r.consumers, q.arena ≠ arena ∨ q.idx < i) →
      ∃ r', getRes (FrameGraphBuilder.buildLoop arena i g entries).resources n = some r'
        ∧ r'.consumers = r.consumers ++ readersFrom arena i n entries
        ∧ r'.producer = (match lastWriterFrom arena i n entries with
            | some p => some p
            | none => r.producer) := by
  intro entries
  induction entries with
  | nil =>
    intro i g n r hg hP
    exact ⟨r, hg, by simp [readersFrom], by simp [lastWriterFrom]⟩
  | cons e rest ih =>
    intro i g n r hg hP
    have hnotin : (⟨arena, i⟩ : PassPtr) ∉ r.consumers := by
      intro hmem
      rcases hP _ hmem with h | h
      · exact h rfl
      · simp at h
    have hg2 := buildStep_lookup arena i g e n r hg
    have hr1c : (if n ∈ e.inputs then (r.addConsumer (some ⟨arena, i⟩)).1 else r).consumers
        = r.consumers ++ (if n ∈ e.inputs then [(⟨arena, i⟩ : PassPtr)] else []) := by
      by_cases hin : n ∈ e.inputs
      · rw [if_pos hin, if_pos hin, addConsumer_not_mem r _ hnotin]
      · rw [if_neg hin, if_neg hin, List.append_nil]
    have hr1p : (if n ∈ e.inputs then (r.addConsumer (some ⟨arena, i⟩)).1 else r).producer
        = r.producer := by
      by_cases hin : n ∈ e.inputs
      · rw [if_pos hin, addConsumer_producer]
      · rw [if_neg hin]
    have hr2c : (if n ∈ e.outputs then
          (if n ∈ e.inputs then (r.addConsumer (some ⟨arena, i⟩)).1 else r).setProducer
            (some ⟨arena, i⟩)
        else (if n ∈ e.inputs then (r.addConsumer (some ⟨arena, i⟩)).1 else r)).consumers
        = r.consumers ++ (if n ∈ e.inputs then [(⟨arena, i⟩ : PassPtr)] else []) := by
      by_cases hout : n ∈ e.outputs
      · rw [if_pos hout]
        show (if n ∈ e.inputs then (r.addConsumer (some ⟨arena, i⟩)).1 else r).consumers = _
        exact hr1c
      · rw [if_neg hout]
        exact hr1c
    have hr2p : (if n ∈ e.outputs then
          (if n ∈ e.inputs then (r.addConsumer (some ⟨arena, i⟩)).1 else r).setProducer
            (some ⟨arena, i⟩)
        else (if n ∈ e.inputs then (r.addConsumer (some ⟨arena, i⟩)).1 else r)).producer
        = (if n ∈ e.outputs then some (⟨arena, i⟩ : PassPtr) else r.producer) := by
      by_cases hout : n ∈ e.outputs
      · rw [if_pos hout, if_pos hout]
        rfl
      · rw [if_neg hout, if_neg hout]
        exact hr1p
    have hP2 : ∀ q ∈ (if n ∈ e.outputs then
          (if n ∈ e.inputs then (r.addConsumer (some ⟨arena, i⟩)).1 else r).setProducer
            (some ⟨arena, i⟩)
        else (if n ∈ e.inputs then (r.addConsumer (some ⟨arena, i⟩)).1 else r)).consumers,
        q.arena ≠ arena ∨ q.idx < i + 1 := by
      rw [hr2c]
      intro q hq
      rcases List.mem_append.mp hq with hq1 | hq2
      · rcases hP _ hq1 with h | h
        · exact Or.inl h
        · exact Or.inr (by omega)
      · by_cases hin : n ∈ e.inputs
        · rw [if_pos hin] at hq2
          rcases List.mem_singleton.mp hq2 with rfl
          exact Or.inr (by simp)
        · rw [if_neg hin] at hq2
          exact absurd hq2 (List.not_mem_nil _)
    obtain ⟨r', hg', hc', hp'⟩ := ih (i + 1) (FrameGraphBuilder.buildStep arena i g e) n _ hg2 hP2
    refine ⟨r', hg', ?_, ?_⟩
    · rw [hc', hr2c]
      simp [readersFrom, List.append_assoc]
    · rw [hp', hr2p]
      have hcons : lastWriterFrom arena i n (e :: rest)
          = (match lastWriterFrom arena (i + 1) n rest with
             | some p => some p
             | none => if n ∈ e.outputs then some (⟨arena, i⟩ : PassPtr) else none) := rfl
      rw [hcons]
      cases hlw : lastWriterFrom arena (i + 1) n rest with
      | some p => rfl
      | none =>
        by_cases hout : n ∈ e.outputs
        · simp [hout]
        · simp [hout]
theorem compile_wiring (g : FrameGraph) (n : String) :
    (getRes (FrameGraph.compile g).resources n).map wiringOf
      = (getRes g.resources n).map wiringOf := by
  unfold FrameGraph.compile
  rcases hR : FrameGraph.rootMark g.passes
      (g.resources.map (fun p => (p.1, p.2.resetUsage))) with ⟨res1, used1⟩
  rcases hP : FrameGraph.propagate (g.passes.length + 1) g.passes res1 used1
      with ⟨res2, used2⟩
  have h0 : (getRes (g.resources.map (fun p => (p.1, p.2.resetUsage))) n).map wiringOf
      = (getRes g.resources n).map wiringOf := by
    rw [getRes_map_val]
    cases getRes g.resources n <;> simp [RenderResource.resetUsage, wiringOf]
  have h1 : (getRes res1 n).map wiringOf = (getRes g.resources n).map wiringOf := by
    have := rootMark_wiring g.passes (g.resources.map (fun p => (p.1, p.2.resetUsage))) n
    rw [hR] at this
    rw [this]
    exact h0
  have h2 : (getRes res2 n).map wiringOf = (getRes g.resources n).map wiringOf := by
    have := propagate_wiring (g.passes.length + 1) g.passes res1 used1 n
    rw [hP] at this
    rw [this]
    exact h1
  simp only [hR, hP]
  exact h2

/-- Pointwise form of the input-loop body: it appends the optional
transition of that input. -/
theorem inputTransStep_eq (res : ResMap) (t : List BackendCall) (input : String) :
    FrameGraph.inputTransStep res t input
      = t ++ (FrameGraph.inputTransOpt res input).toList := by
  unfold FrameGraph.inputTransStep FrameGraph.inputTransOpt
  cases hg : getRes res input with
  | none => simp
  | some r =>
    by_cases hv : r.resourceID.isValid = true
    · by_cases hs : r.state ≠ ResourceState.shaderRead
      · simp [hv, hs]
      · simp [hv, hs]
    · simp [hv]

/-- Pointwise form of the output-loop body: it appends the optional
transition of that output. -/
theorem outputTransStep_eq (res : ResMap) (t : List BackendCall) (output : String) :
    FrameGraph.outputTransStep res t output
      = t ++ (FrameGraph.outputTransOpt res output).toList := by
  unfold FrameGraph.outputTransStep FrameGraph.outputTransOpt
  cases hg : getRes res output with
  | none => simp
  | some r =>
    by_cases hv : r.resourceID.isValid = true
    · simp [hv]
    · simp [hv]

/-- A fold whose body appends an optional element per item produces the
filterMap of the items, appended to the initial trace. -/
theorem foldl_append_toList {α β : Type} (f : α → Option β)
    (s : List β → α → List β) (hs : ∀ t a, s t a = t ++ (f a).toList) :
    ∀ (l : List α) (t : List β), l.foldl s t = t ++ l.filterMap f := by
  intro l
  induction l with
  | nil => intro t; simp
  | cons a l ih =>
    intro t
    rw [List.foldl_cons, hs, ih, List.filterMap_cons]
    cases hf : f a <;> simp [hf]

/-- executeLoop leaves the resource map untouched and appends, pass by
pass in sequence order, exactly the backend calls passEmissionSpec
describes for each pass. -/
theorem executeLoop_spec (res : ResMap) :
    ∀ (ps : List RenderPass) (t : List BackendCall) (cb : List RenderCommand),
      (FrameGraph.executeLoop res t cb ps).1 = res
      ∧ (FrameGraph.executeLoop res t cb ps).2.1
          = t ++ (ps.map (FrameGraph.passEmissionSpec res)).flatten := by
  intro ps
  induction ps with
  | nil => intro t cb; exact ⟨rfl, by simp [FrameGraph.executeLoop]⟩
  | cons p ps ih =>
    intro t cb
    simp only [FrameGraph.executeLoop]
    rw [foldl_append_toList (FrameGraph.inputTransOpt res) _ (inputTransStep_eq res),
      foldl_append_toList (FrameGraph.outputTransOpt res) _ (outputTransStep_eq res)]
    refine ⟨(ih _ _).1, ?_⟩
    rw [(ih _ _).2]
    by_cases hc : (p.execute []).length > 0
    · simp [hc, FrameGraph.passEmissionSpec, List.append_assoc]
    · simp [hc, FrameGraph.passEmissionSpec, List.append_assoc]

/-- The trace of FrameGraph::execute is the concatenation, in pass order,
of each pass's specified emission. -/
theorem executeF_trace (g : FrameGraph) :
    (FrameGraph.executeF g).1 = (g.passes.map (FrameGraph.passEmissionSpec g.resources)).flatten := by
  unfold FrameGraph.executeF
  rw [(executeLoop_spec g.resources g.passes [] []).2]
  simp

/-- FrameGraph::execute returns the graph unchanged: it only reads the
resource map. -/
theorem executeF_graph (g : FrameGraph) : (FrameGraph.executeF g).2 = g := by
  unfold FrameGraph.executeF
  rcases hE : FrameGraph.executeLoop g.resources [] [] g.passes with ⟨res, trace, cb⟩
  have hres : res = g.resources := by
    have h1 := (executeLoop_spec g.resources g.passes [] []).1
    rw [hE] at h1
    exact h1
  subst hres
  rfl

/-- Folding addResource over pairs none of which carries the key leaves
that key's lookup unchanged. -/
theorem addResFold_lookup_notin :
    ∀ (rs : ResMap) (g : FrameGraph) (n : String), (∀ p ∈ rs, p.1 ≠ n) →
      getRes ((rs.foldl (fun g nr => FrameGraph.addResource g nr.1 nr.2) g)).resources n
        = getRes g.resources n := by
  intro rs
  induction rs with
  | nil => intro g n _; rfl
  | cons p rest ih =>
    intro g n h
    rw [List.foldl_cons]
    rw [ih _ _ (fun q hq => h q (List.mem_cons_of_mem p hq))]
    show getRes (insertRes g.resources p.1 p.2) n = getRes g.resources n
    rw [getRes_insertRes, if_neg (h p (List.mem_cons_self p rest))]

/-- Folding addResource over a key-distinct map installs exactly the
stored values: the value found in the folded-in map wins. -/
theorem addResFold_lookup_in :
    ∀ (rs : ResMap) (g : FrameGraph) (n : String) (r : RenderResource),
      (rs.map Prod.fst).Nodup → getRes rs n = some r →
      getRes ((rs.foldl (fun g nr => FrameGraph.addResource g nr.1 nr.2) g)).resources n
        = some r := by
  intro rs
  induction rs with
  | nil => intro g n r _ hr; exact absurd hr (by simp [getRes])
  | cons p rest ih =>
    intro g n r hnodup hr
    obtain ⟨k, v⟩ := p
    have hnd : k ∉ rest.map Prod.fst ∧ (rest.map Prod.fst).Nodup := by
      simpa using hnodup
    rw [List.foldl_cons]
    by_cases hk : k = n
    · subst hk
      have hv : v = r := by
        simpa [getRes] using hr
      subst hv
      have hrest : ∀ q ∈ rest, q.1 ≠ k := by
        intro q hq hqk
        exact hnd.1 (hqk ▸ List.mem_map_of_mem Prod.fst hq)
      rw [addResFold_lookup_notin rest _ k hrest]
      show getRes (insertRes g.resources k v) k = some v
      rw [getRes_insertRes, if_pos rfl]
    · have hr' : getRes rest n = some r := by
        simpa [getRes, hk] using hr
      exact ih _ _ _ hnd.2 hr'

/-- C3 counterexample: on builder bC3 (empty target graph, builder-local
resources "R" and "W", one entry reading "R" and writing "W"), build()
returns a graph in which "R" and "W" exist but "W" has no producer and
"R" has no consumers: the wiring loop ran before the local resources were
copied into the graph, so it found nothing to wire. -/
theorem build_leaves_builder_resources_unwired :
    ((getRes (FrameGraphBuilder.build bC3).resources "W").map RenderResource.producer
      = some none)
    ∧ ((getRes (FrameGraphBuilder.build bC3).resources "R").map RenderResource.consumers
      = some [])
    ∧ (FrameGraphBuilder.build bC3).passes.map RenderPass.name = ["P"] := by
  refine ⟨by decide, by decide, by decide⟩

/-- C3 amended: build() wires only resources already present in the target
FrameGraph when it runs and not shadowed by a builder-declared resource:
for such a resource, every entry reading it is appended as a consumer (in
entry order) and the last entry writing it becomes its producer; each
entry's RenderPass carries the captured execute function; and resources
declared through the builder (createTexture / createBuffer /
importResource) are copied into the FrameGraph after the wiring loop with
their producer and consumer lists unchanged — unwired. -/
theorem build_wires_preexisting_only :
    ∀ b : FrameGraphBuilder,
      ((b.resources.map Prod.fst).Nodup →
        ∀ n r, getRes b.resources n = some r →
          ∃ r', getRes (FrameGraphBuilder.build b).resources n = some r'
            ∧ r'.producer = r.producer ∧ r'.consumers = r.consumers)
      ∧ (∀ (a i : Nat) (g : FrameGraph) (e : PassEntry),
          ∃ p, (FrameGraphBuilder.buildStep a i g e).passes = g.passes ++ [p]
            ∧ p.executeFunc = some e.executeFunc ∧ p.name = e.name)
      ∧ (∀ n r, getRes b.framegraph.resources n = some r →
          getRes b.resources n = none →
          (∀ q ∈ r.consumers, q.arena ≠ b.arena) →
          ∃ r', getRes (FrameGraphBuilder.build b).resources n = some r'
            ∧ r'.consumers = r.consumers ++ readersFrom b.arena 0 n b.passes
            ∧ r'.producer = (match lastWriterFrom b.arena 0 n b.passes with
                | some p => some p
                | none => r.producer)) := by
  intro b
  refine ⟨?_, fun a i g e => buildStep_passes a i g e, ?_⟩
  · intro hnodup n r hr
    have hcopy : getRes ((b.resources.foldl
        (fun g nr => FrameGraph.addResource g nr.1 nr.2)
        (FrameGraphBuilder.buildLoop b.arena 0 b.framegraph b.passes))).resources n
        = some r := addResFold_lookup_in b.resources _ n r hnodup hr
    have hcw := compile_wiring (b.resources.foldl
        (fun g nr => FrameGraph.addResource g nr.1 nr.2)
        (FrameGraphBuilder.buildLoop b.arena 0 b.framegraph b.passes)) n
    rw [hcopy] at hcw
    obtain ⟨r', hr', hw⟩ := Option.map_eq_some'.mp hcw
    refine ⟨r', hr', ?_, ?_⟩
    · exact congrArg Prod.fst hw
    · exact congrArg Prod.snd hw
  · intro n r hr hlocal hfresh
    obtain ⟨r2, hg2, hc2, hp2⟩ := buildLoop_lookup b.arena b.passes 0 b.framegraph n r hr
      (fun q hq => Or.inl (hfresh q hq))
    have hkeys := (getRes_none_iff b.resources n).mp hlocal
    have hg3 : getRes ((b.resources.foldl
        (fun g nr => FrameGraph.addResource g nr.1 nr.2)
        (FrameGraphBuilder.buildLoop b.arena 0 b.framegraph b.passes))).resources n
        = some r2 := by
      rw [addResFold_lookup_notin b.resources _ n hkeys]
      exact hg2
    have hcw := compile_wiring (b.resources.foldl
        (fun g nr => FrameGraph.addResource g nr.1 nr.2)
        (FrameGraphBuilder.buildLoop b.arena 0 b.framegraph b.passes)) n
    rw [hg3] at hcw
    obtain ⟨r', hr', hw⟩ := Option.map_eq_some'.mp hcw
    have hcons : r'.consumers = r2.consumers := congrArg Prod.snd hw
    have hprod : r'.producer = r2.producer := congrArg Prod.fst hw
    refine ⟨r', hr', ?_, ?_⟩
    · rw [hcons]
      exact hc2
    · rw [hprod]
      exact hp2

/-- Witness for C3: on builder bC3w, whose target graph already holds
resource "S" (no consumers) and whose single entry reads and writes "S",
the theorem yields the compiled resource "S" with the entry's pass pointer
as sole consumer and as producer. -/
theorem build_wires_preexisting_only_witness :
    getRes bC3w.framegraph.resources "S" = some { name := "S", transient := false }
    ∧ getRes bC3w.resources "S" = none
    ∧ ∃ r', getRes (FrameGraphBuilder.build bC3w).resources "S" = some r'
        ∧ r'.consumers = ({ name := "S", transient := false } : RenderResource).consumers
            ++ readersFrom bC3w.arena 0 "S" bC3w.passes
        ∧ r'.producer = (match lastWriterFrom bC3w.arena 0 "S" bC3w.passes with
            | some p => some p
            | none => ({ name := "S", transient := false } : RenderResource).producer) := by
  refine ⟨rfl, rfl, ?_⟩
  exact (build_wires_preexisting_only bC3w).2.2 "S" _ rfl rfl (by simp)

/-- Every transition request a pass emits carries, as its old state, the
state recorded in the resource map it was emitted against, for a resource
with the matching ID. -/
theorem passEmissionSpec_transition_src (res : ResMap) (p : RenderPass)
    (id : ResourceID) (oldS newS : ResourceState)
    (h : BackendCall.transition id oldS newS ∈ FrameGraph.passEmissionSpec res p) :
    ∃ n r, getRes res n = some r ∧ r.resourceID = id ∧ r.state = oldS := by
  unfold FrameGraph.passEmissionSpec at h
  rcases List.mem_append.mp h with h1 | h2
  · rcases List.mem_append.mp h1 with hin | hout
    · rcases List.mem_filterMap.mp hin with ⟨input, _, heq⟩
      cases hg : getRes res input with
      | none => simp [FrameGraph.inputTransOpt, hg] at heq
      | some r =>
        by_cases hv : r.resourceID.isValid = true
        · by_cases hs : r.state ≠ ResourceState.shaderRead
          · simp [FrameGraph.inputTransOpt, hg, hv, hs] at heq
            exact ⟨input, r, hg, heq.1, heq.2.1⟩
          · simp [FrameGraph.inputTransOpt, hg, hv, hs] at heq
        · simp [FrameGraph.inputTransOpt, hg, hv] at heq
    · rcases List.mem_filterMap.mp hout with ⟨output, _, heq⟩
      cases hg : getRes res output with
      | none => simp [FrameGraph.outputTransOpt, hg] at heq
      | some r =>
        by_cases hv : r.resourceID.isValid = true
        · simp [FrameGraph.outputTransOpt, hg, hv] at heq
          exact ⟨output, r, hg, heq.1, heq.2.1⟩
        · simp [FrameGraph.outputTransOpt, hg, hv] at heq
  · by_cases hc : (p.execute []).length > 0
    · rw [if_pos hc] at h2
      exact BackendCall.noConfusion (List.mem_singleton.mp h2)
    · rw [if_neg hc] at h2
      exact absurd h2 (List.not_mem_nil _)

/-- C4: execute(backend) walks the surviving passes strictly in sequence
order, and for each pass emits exactly the conditional SHADER_READ input
transitions (skipped when the state already is SHADER_READ), then the
unconditional SHADER_WRITE output transitions (both only for resolving
resources with a valid ID), then the commands its callback records into a
cleared scratch buffer, submitted if and only if at least one command was
recorded: the trace equals the concatenation, in pass order, of each
pass's specified emission. -/
theorem execute_emits_per_pass_spec (g : FrameGraph) :
    (FrameGraph.executeF g).1
      = (g.passes.map (FrameGraph.passEmissionSpec g.resources)).flatten :=
  executeF_trace g

/-- C10: execute(backend) never modifies the graph (in particular no
resource state is updated after a transition is requested), every
transition request carries as its old state the state recorded in the
resource map before execute began, and executing twice produces the
identical trace of backend calls. -/
theorem execute_reads_only_and_repeats :
    ∀ g : FrameGraph,
      (FrameGraph.executeF g).2 = g
      ∧ (∀ (id : ResourceID) (oldS newS : ResourceState),
          BackendCall.transition id oldS newS ∈ (FrameGraph.executeF g).1 →
          ∃ n r, getRes g.resources n = some r ∧ r.resourceID = id ∧ r.state = oldS)
      ∧ (FrameGraph.executeF (FrameGraph.executeF g).2).1 = (FrameGraph.executeF g).1 := by
  intro g
  refine ⟨executeF_graph g, ?_, by rw [executeF_graph g]⟩
  intro id oldS newS hmem
  rw [executeF_trace g] at hmem
  rcases List.mem_flatten.mp hmem with ⟨block, hblock, hin⟩
  rcases List.mem_map.mp hblock with ⟨p, _, rfl⟩
  exact passEmissionSpec_transition_src g.resources p id oldS newS hin

/-- Witness for C10: on gC10 the trace contains the SHADER_READ transition
for "R" with the pre-execute UNDEFINED state as old state, and the theorem
locates its source resource. -/
theorem execute_reads_only_and_repeats_witness :
    (BackendCall.transition (ResourceID.create 1 0) ResourceState.undefined
        ResourceState.shaderRead ∈ (FrameGraph.executeF gC10).1)
    ∧ ∃ n r, getRes gC10.resources n = some r
        ∧ r.resourceID = ResourceID.create 1 0 ∧ r.state = ResourceState.undefined := by
  have htr : (FrameGraph.executeF gC10).1
      = [BackendCall.transition (ResourceID.create 1 0) ResourceState.undefined
          ResourceState.shaderRead] := rfl
  have hmem : BackendCall.transition (ResourceID.create 1 0) ResourceState.undefined
      ResourceState.shaderRead ∈ (FrameGraph.executeF gC10).1 := by
    rw [htr]
    exact List.mem_singleton.mpr rfl
  exact ⟨hmem, (execute_reads_only_and_repeats gC10).2.1 _ _ _ hmem⟩

/-- The declaration position determines a RenderCommandType uniquely. -/
theorem cmdType_toNat_inj :
    ∀ s t : RenderCommandType, s.toNat = t.toNat → s = t := by
  intro s t h
  cases s <;> cases t <;> simp_all [RenderCommandType.toNat]

/-- The comparator holds exactly when the type positions are strictly
ordered, or the types are equal, in the DRAW family, and the material
indices are strictly ordered. -/
theorem cmdLt_eq_true_iff (x y : RenderCommand) :
    cmdLt x y = true ↔
      (x.type.toNat < y.type.toNat
        ∨ (x.type = y.type ∧ isDrawFamily x.type ∧ x.drawMatIndex < y.drawMatIndex)) := by
  cases hx : x.type <;> cases hy : y.type <;>
    simp [cmdLt, hx, hy, RenderCommandType.toNat, isDrawFamily]

/-- The comparator is asymmetric. -/
theorem cmdLt_asymm (a b : RenderCommand) (h1 : cmdLt a b = true)
    (h2 : cmdLt b a = true) : False := by
  rcases (cmdLt_eq_true_iff a b).mp h1 with hl1 | ⟨he1, _, hm1⟩ <;>
    rcases (cmdLt_eq_true_iff b a).mp h2 with hl2 | ⟨he2, _, hm2⟩
  · omega
  · have := congrArg RenderCommandType.toNat he2
    omega
  · have := congrArg RenderCommandType.toNat he1
    omega
  · omega

/-- Totality of the non-strict relation the stable sort runs with. -/
theorem cmdLe_total (a b : RenderCommand) : (!cmdLt b a) || (!cmdLt a b) := by
  by_cases h1 : cmdLt b a = true
  · by_cases h2 : cmdLt a b = true
    · exact absurd (cmdLt_asymm a b h2 h1) (fun f => f)
    · simp [h2]
  · simp [h1]

/-- Transitivity of the non-strict relation the stable sort runs with. -/
theorem cmdLe_trans (a b c : RenderCommand) (hab : (!cmdLt b a) = true)
    (hbc : (!cmdLt c b) = true) : (!cmdLt c a) = true := by
  simp only [Bool.not_eq_true'] at hab hbc ⊢
  have hnab : ¬ (cmdLt b a = true) := by simp [hab]
  have hnbc : ¬ (cmdLt c b = true) := by simp [hbc]
  rw [cmdLt_eq_true_iff] at hnab hnbc
  push_neg at hnab hnbc
  cases hval : cmdLt c a with
  | false => rfl
  | true =>
    exfalso
    rcases (cmdLt_eq_true_iff c a).mp hval with hl | ⟨hce, hcd, hcm⟩
    · have h1 := hnab.1
      have h2 := hnbc.1
      omega
    · have hta := congrArg RenderCommandType.toNat hce
      have h1 := hnab.1
      have h2 := hnbc.1
      have hba : b.type = a.type := cmdType_toNat_inj _ _ (by omega)
      have hcb : c.type = b.type := cmdType_toNat_inj _ _ (by omega)
      have hDb : isDrawFamily b.type := hcb ▸ hcd
      have hm1 := hnab.2 hba hDb
      have hm2 := hnbc.2 hcb hcd
      omega

/-- The non-strict relation implies the claim-vocabulary ordering. -/
theorem cmdLe_imp_ordered (a b : RenderCommand) (h : (!cmdLt b a) = true) :
    cmdOrdered a b := by
  simp only [Bool.not_eq_true'] at h
  have hn : ¬ (cmdLt b a = true) := by simp [h]
  rw [cmdLt_eq_true_iff] at hn
  push_neg at hn
  constructor
  · intro hne
    have h2 : a.type.toNat ≠ b.type.toNat := fun hEq => hne (cmdType_toNat_inj _ _ hEq)
    have h1 := hn.1
    omega
  · intro hEq hD
    exact hn.2 hEq.symm (hEq ▸ hD)

/-- Commands the comparator considers equivalent (same type, and equal
material index when in the DRAW family) are in non-strict order both
ways. -/
theorem cmdLe_of_equiv (a b : RenderCommand) (hty : a.type = b.type)
    (hm : a.drawMatIndex = b.drawMatIndex ∨ ¬ isDrawFamily a.type) :
    (!cmdLt b a) = true := by
  simp only [Bool.not_eq_true']
  cases hval : cmdLt b a with
  | false => rfl
  | true =>
    exfalso
    rcases (cmdLt_eq_true_iff b a).mp hval with hl | ⟨hbe, hbd, hbm⟩
    · have := congrArg RenderCommandType.toNat hty
      omega
    · have hDa : isDrawFamily a.type := hty ▸ (hty.symm ▸ hbd)
      rcases hm with hmeq | hnD
      · omega
      · exact hnD hDa

/-- C8 counterexample: two DRAW_INDEXED commands are non-DRAW commands of
the same type, yet sort() reorders them when their material indices are
out of order, so the claim's clause that any two non-DRAW commands of the
same type keep their original relative order is false. -/
theorem sort_reorders_equal_type_drawIndexed :
    (mkDrawIndexed 1).type ≠ RenderCommandType.draw
    ∧ (mkDrawIndexed 0).type ≠ RenderCommandType.draw
    ∧ (mkDrawIndexed 1).type = (mkDrawIndexed 0).type
    ∧ [mkDrawIndexed 1, mkDrawIndexed 0].Sublist [mkDrawIndexed 1, mkDrawIndexed 0]
    ∧ ¬ [mkDrawIndexed 1, mkDrawIndexed 0].Sublist
        (sortCmds [mkDrawIndexed 1, mkDrawIndexed 0]) := by
  have hsort : sortCmds [mkDrawIndexed 1, mkDrawIndexed 0]
      = [mkDrawIndexed 0, mkDrawIndexed 1] := by
    simp [sortCmds, List.mergeSort, cmdLt, mkDrawIndexed, RenderCommand.drawMatIndex,
      ResourceID.create]
  refine ⟨by simp [mkDrawIndexed], by simp [mkDrawIndexed], rfl, List.Sublist.refl _, ?_⟩
  intro hsub
  rw [hsort] at hsub
  have heq : ([mkDrawIndexed 1, mkDrawIndexed 0] : List RenderCommand)
      = [mkDrawIndexed 0, mkDrawIndexed 1] :=
    hsub.eq_of_length (by simp)
  have hhead : mkDrawIndexed 1 = mkDrawIndexed 0 := (List.cons.injEq _ _ _ _).mp heq |>.1
  have hmat := congrArg RenderCommand.drawMatIndex hhead
  simp [mkDrawIndexed, RenderCommand.drawMatIndex, ResourceID.create] at hmat

/-- C8 amended: sort() produces a permutation ordered primarily by command
type (enumeration order) and secondarily, for DRAW and DRAW_INDEXED, by
materialID.index; any two commands of the same DRAW-family type with equal
materialID.index keep their original relative order (in particular any two
such DRAW commands), and any two commands of the same type outside the
DRAW family (neither DRAW nor DRAW_INDEXED) keep their original relative
order. -/
theorem sort_stable_spec :
    ∀ l : List RenderCommand,
      (sortCmds l).Perm l
      ∧ (sortCmds l).Pairwise cmdOrdered
      ∧ (∀ a b : RenderCommand, [a, b].Sublist l → a.type = b.type →
          isDrawFamily a.type → a.drawMatIndex = b.drawMatIndex →
          [a, b].Sublist (sortCmds l))
      ∧ (∀ a b : RenderCommand, [a, b].Sublist l → a.type = b.type →
          ¬ isDrawFamily a.type → [a, b].Sublist (sortCmds l)) := by
  intro l
  refine ⟨List.mergeSort_perm l _, ?_, ?_, ?_⟩
  · exact (List.sorted_mergeSort cmdLe_trans cmdLe_total l).imp
      (fun h => cmdLe_imp_ordered _ _ h)
  · intro a b hsub hty hD hm
    exact List.pair_sublist_mergeSort cmdLe_trans cmdLe_total
      (cmdLe_of_equiv a b hty (Or.inl hm)) hsub
  · intro a b hsub hty hnD
    exact List.pair_sublist_mergeSort cmdLe_trans cmdLe_total
      (cmdLe_of_equiv a b hty (Or.inr hnD)) hsub

/-- Witness for C8: two DRAW commands with equal material index 5 keep
their relative order through sort(). -/
theorem sort_stable_spec_witness :
    [mkDraw 1 5, mkDraw 2 5].Sublist [mkDraw 1 5, mkDraw 2 5]
    ∧ (mkDraw 1 5).type = (mkDraw 2 5).type
    ∧ isDrawFamily (mkDraw 1 5).type
    ∧ (mkDraw 1 5).drawMatIndex = (mkDraw 2 5).drawMatIndex
    ∧ [mkDraw 1 5, mkDraw 2 5].Sublist (sortCmds [mkDraw 1 5, mkDraw 2 5]) := by
  have hsub : [mkDraw 1 5, mkDraw 2 5].Sublist [mkDraw 1 5, mkDraw 2 5] :=
    List.Sublist.refl _
  exact ⟨hsub, rfl, Or.inl rfl, rfl,
    (sort_stable_spec [mkDraw 1 5, mkDraw 2 5]).2.2.1 _ _ hsub rfl (Or.inl rfl) rfl⟩

/-- C1: the claimed invariant fails on gC1. After compile() the surviving
pass sequence is exactly [A]; every output of every surviving pass
resolves to a transient resource (so no surviving pass has a non-transient
output, and no surviving pass can be transitively required by one); and no
surviving pass consumes "T", A's only output. The claim would force the
surviving sequence to be empty here. -/
theorem compile_invariant_violated_at_gC1 :
    (FrameGraph.compile gC1).passes.map RenderPass.name = ["A"]
    ∧ ((FrameGraph.compile gC1).passes.all (fun p =>
        p.outputs.all (fun o =>
          match getRes (FrameGraph.compile gC1).resources o with
          | some r => r.transient
          | none => true))) = true
    ∧ ((FrameGraph.compile gC1).passes.all (fun p => !(p.inputs.contains "T"))) = true := by
  refine ⟨by decide, by decide, by decide⟩

/-- C2: transitive retention fails on gC2. Pass A writes transient
"Intermediate", pass B reads it and writes non-transient "Swapchain"; the
claim says both survive compile(), but the compiled pass sequence is
exactly [B]: the propagation loop skips passes already marked used, so B's
inputs are never examined and A is culled. -/
theorem compile_culls_needed_producer_at_gC2 :
    (FrameGraph.compile gC2).passes.map RenderPass.name = ["B"] := by
  decide

/-- C5: the copy constructor violates the claim on gC5. The original
resource "R" has the original graph's pass 0 as its sole consumer; in the
copy (built in fresh arena 1), the producer is correctly re-bound to the
copy's pass ⟨1,0⟩, but the consumer list is never cleared, so it still
holds the stale pointer ⟨0,0⟩ into the original graph's storage next to
the re-bound ⟨1,0⟩ instead of consisting exactly of the copy's matching
passes. -/
theorem copy_ctor_keeps_stale_consumers :
    ((getRes (copyFrameGraph gC5 1).resources "R").map RenderResource.consumers
      = some [⟨0, 0⟩, ⟨1, 0⟩])
    ∧ ((getRes (copyFrameGraph gC5 1).resources "R").map RenderResource.producer
      = some (some ⟨1, 0⟩)) := by
  refine ⟨by decide, by decide⟩

/-- C9: ResourceID is a pure value type: create(5,0) and create(5,1)
differ, invalid() is canonical and not valid, isValid is exactly the
index test against INVALID_INDEX, the hash depends only on the two fields,
and inserting create(7,2) twice into a hash set leaves one element. -/
theorem resourceID_value_semantics :
    ResourceID.create 5 0 ≠ ResourceID.create 5 1
    ∧ ResourceID.invalid = ResourceID.invalid
    ∧ ResourceID.invalid.isValid = false
    ∧ (∀ r : ResourceID, r.isValid = true ↔ r.index ≠ ResourceID.INVALID_INDEX)
    ∧ (∀ r s : ResourceID, r.index = s.index → r.generation = s.generation →
        hashRID r = hashRID s)
    ∧ (hsInsert (hsInsert [] (ResourceID.create 7 2)) (ResourceID.create 7 2)).length = 1 := by
  refine ⟨by decide, rfl, by decide, ?_, ?_, by decide⟩
  · intro r
    simp [ResourceID.isValid, bne_iff_ne]
  · intro r s h1 h2
    simp [hashRID, hashU32, h1, h2]

/-- Witness for C9: the hash-determinism component applied at the concrete
handle create(7,2). -/
theorem resourceID_value_semantics_witness :
    (ResourceID.create 7 2).index = (ResourceID.create 7 2).index
    ∧ hashRID (ResourceID.create 7 2) = hashRID (ResourceID.create 7 2) :=
  ⟨rfl, resourceID_value_semantics.2.2.2.2.1 (ResourceID.create 7 2) (ResourceID.create 7 2)
    rfl rfl⟩

/-- C7: addConsumer rejects a null pass with a logged warning and no state
change, and adding the same non-null pass pointer twice leaves the
consumer list (hence its size) exactly as after the first call. -/
theorem addConsumer_null_and_dedup :
    ∀ (r : RenderResource) (p : PassPtr),
      ((r.addConsumer none).1 = r ∧ (r.addConsumer none).2 = true)
      ∧ ((r.addConsumer (some p)).1.addConsumer (some p)).1 = (r.addConsumer (some p)).1
      ∧ ((r.addConsumer (some p)).1.addConsumer (some p)).1.consumers.length
          = (r.addConsumer (some p)).1.consumers.length := by
  intro r p
  have hsecond :
      ((r.addConsumer (some p)).1.addConsumer (some p)).1 = (r.addConsumer (some p)).1 := by
    by_cases h : p ∈ r.consumers <;>
      simp [RenderResource.addConsumer, h]
  exact ⟨⟨rfl, rfl⟩, hsecond, by rw [hsecond]⟩

/-- C6 counterexample: read is not idempotent. On a fresh PassBuilder,
reading "a" twice leaves the inputs list ["a", "a"], different from the
["a"] after one call (read only checks the outputs list, not the inputs
list, before appending). -/
theorem passBuilder_read_twice_duplicates :
    ((PassBuilder.read (PassBuilder.read {} "a") "a").inputs
      ≠ (PassBuilder.read {} "a").inputs)
    ∧ (PassBuilder.read (PassBuilder.read {} "a") "a").inputs = ["a", "a"] := by
  refine ⟨by decide, by decide⟩

/-- C6 amended: write is idempotent with respect to duplicate names, and
read appends the name to the inputs list exactly when the name is not
already a declared output of the same pass — even when the name is
already in the inputs list, so read is not idempotent. -/
theorem passBuilder_write_idempotent_read_appends :
    ∀ (b : PassBuilder) (n : String),
      (PassBuilder.write (PassBuilder.write b n) n = PassBuilder.write b n)
      ∧ (PassBuilder.read b n).inputs
          = (if b.outputs.contains n then b.inputs else b.inputs ++ [n])
      ∧ (PassBuilder.read b n).outputs = b.outputs := by
  intro b n
  refine ⟨?_, ?_, ?_⟩
  · by_cases h : n ∈ b.outputs <;>
      simp [PassBuilder.write, h]
  · by_cases h : n ∈ b.outputs <;>
      simp [PassBuilder.read, h]
  · by_cases h : n ∈ b.outputs <;>
      simp [PassBuilder.read, h]

end Konstrukt
